import Mathlib

/-!
Shallow embedding of the AVX512 single-precision backend of the xsimd
vectorization layer (`include/xsimd/types/xsimd_avx512_float.hpp`), together
with proofs about the batch operations it defines.

A `batch<float, 16>` is modelled as a function `Fin 16 → F32`, where `F32` is
an idealized IEEE-754 single-precision value: NaN, the two infinities, the two
signed zeros, and finite values carried as exact rationals (rounding of
magnitudes and NaN payloads are abstracted away; sign-of-zero rules, NaN
propagation and ordered/unordered comparison semantics are modelled exactly).
A `batch_bool<float, 16>` is an AVX512 `__mmask16`, modelled as a natural
number whose bit `i` is lane `i`. Intrinsics (`_mm512_sub_ps`,
`_mm512_cmp_ps_mask`, `_mm512_mask_blend_ps`, the shuffles, ...) are embedded
from their Intel semantics; batch operations are then transcribed from the
source, statement for statement.  `haddp`, which only permutes and adds
lanes, is embedded over exact rational lanes.  Fallible memory operations
(the 64-byte-aligned loads, whose precondition violation is undefined
behavior) return `Option`.
-/

namespace xsimd

/-- Idealized IEEE-754 binary32 value: NaN (payloads ignored), signed
infinities, signed zeros (`num 0` is +0.0, `nzero` is -0.0) and exact finite
magnitudes. -/
inductive F32 where
  | nan : F32
  | pinf : F32
  | ninf : F32
  | nzero : F32
  | num : ℚ → F32
deriving DecidableEq

/-- Lane predicate: is the value a NaN. -/
def F32.isNaN : F32 → Bool
  | F32.nan => true
  | _ => false

/-- Numeric value of a finite `F32` (both zeros map to 0; the value returned
on NaN or infinity is irrelevant junk, every use is guarded). -/
def F32.val : F32 → ℚ
  | F32.num q => q
  | _ => 0

/-- Order embedding of non-NaN values into the extended rationals
`⊥ = -∞ < ℚ < ⊤ = +∞`, used to state comparison claims; the image of NaN is
irrelevant junk (every use is guarded by a NaN test). -/
def F32.toExt : F32 → WithBot (WithTop ℚ)
  | F32.pinf => ((⊤ : WithTop ℚ) : WithBot (WithTop ℚ))
  | F32.ninf => ⊥
  | F32.nzero => (((0 : ℚ) : WithTop ℚ) : WithBot (WithTop ℚ))
  | F32.num q => ((q : WithTop ℚ) : WithBot (WithTop ℚ))
  | F32.nan => ⊥

/-- IEEE scalar negation `-x`: flips the sign, including on zeros
(`-(+0.0) = -0.0`). This is the per-lane scalar operator the spec compares
the vector negation against. -/
def fneg : F32 → F32
  | F32.nan => F32.nan
  | F32.pinf => F32.ninf
  | F32.ninf => F32.pinf
  | F32.nzero => F32.num 0
  | F32.num q => if q = 0 then F32.nzero else F32.num (-q)

/-- IEEE subtraction `a - b` on the idealized model (exact magnitudes, no
overflow), in the default round-to-nearest-even mode.  The mode only matters
for the sign of an exactly zero result: it is +0.0 except for
`(-0.0) - (+0.0) = -0.0`.  NaN and infinity propagation follow IEEE-754. -/
def fsub : F32 → F32 → F32
  | F32.nan, _ => F32.nan
  | _, F32.nan => F32.nan
  | F32.pinf, F32.pinf => F32.nan
  | F32.pinf, _ => F32.pinf
  | F32.ninf, F32.ninf => F32.nan
  | F32.ninf, _ => F32.ninf
  | _, F32.pinf => F32.ninf
  | _, F32.ninf => F32.pinf
  | a, b =>
    if a.val - b.val = 0 then
      (if a = F32.nzero ∧ b = F32.num 0 then F32.nzero else F32.num 0)
    else F32.num (a.val - b.val)

/-- Ordered equality on `F32` (IEEE `compareQuietEqual`): false if either
operand is NaN, both zeros are equal. Semantics of predicate `_CMP_EQ_OQ`. -/
def feq : F32 → F32 → Bool
  | F32.nan, _ => false
  | _, F32.nan => false
  | F32.pinf, F32.pinf => true
  | F32.ninf, F32.ninf => true
  | F32.pinf, _ => false
  | _, F32.pinf => false
  | F32.ninf, _ => false
  | _, F32.ninf => false
  | a, b => decide (a.val = b.val)

/-- Ordered less-than on `F32` (IEEE `compareQuietLess`): false if either
operand is NaN. Semantics of predicate `_CMP_LT_OQ`. -/
def flt : F32 → F32 → Bool
  | F32.nan, _ => false
  | _, F32.nan => false
  | F32.ninf, F32.ninf => false
  | F32.ninf, _ => true
  | _, F32.ninf => false
  | F32.pinf, _ => false
  | _, F32.pinf => true
  | a, b => decide (a.val < b.val)

/-- Comparison predicates of `_mm512_cmp_ps_mask` used by this backend. -/
inductive CmpPred where
  | EQ_OQ : CmpPred
  | NEQ_OQ : CmpPred
  | LT_OQ : CmpPred
  | LE_OQ : CmpPred
  | UNORD_Q : CmpPred

/-- Scalar semantics of the AVX512 comparison predicates (Intel SDM):
the `_OQ` predicates are ordered (false when either operand is NaN), and
`UNORD_Q` is true exactly when at least one operand is NaN. -/
def cmpPred : CmpPred → F32 → F32 → Bool
  | CmpPred.EQ_OQ, a, b => feq a b
  | CmpPred.NEQ_OQ, a, b => !a.isNaN && !b.isNaN && !(feq a b)
  | CmpPred.LT_OQ, a, b => flt a b
  | CmpPred.LE_OQ, a, b => flt a b || feq a b
  | CmpPred.UNORD_Q, a, b => a.isNaN || b.isNaN

/-- A `batch<float, 16>` value: its 16 lanes. -/
abbrev Vec16 (α : Type) := Fin 16 → α

/-- An 8-lane half register (`__m256`), used inside `hadd`/`haddp`. -/
abbrev Vec8 (α : Type) := Fin 8 → α

/-- Lane index reduced into range (total constructor for `Fin 16`). -/
def idx16 (n : ℕ) : Fin 16 := ⟨n % 16, Nat.mod_lt _ (by norm_num)⟩

/-- Lane index reduced into range (total constructor for `Fin 8`). -/
def idx8 (n : ℕ) : Fin 8 := ⟨n % 8, Nat.mod_lt _ (by norm_num)⟩

/-- Little-endian bit packing of a list of booleans into a natural number
(bit `i` of the result is element `i` of the list). -/
def mkMaskAux : List Bool → ℕ
  | [] => 0
  | b :: rest => b.toNat + 2 * mkMaskAux rest

/-- Modelled from the spec: the `batch_bool<float, 16>` constructor from 16
explicit booleans.  Its `batch_bool_avx512<__mmask16, ...>` base class lives
in `xsimd_avx512_bool.hpp`, which is not among the sources; the spec states
that a mask batch is "constructible from N explicit booleans (lane 0 first)"
and that on this backend each lane is one bit of a compact bitmask, so lane
`i` becomes bit `i` of the `__mmask16`. -/
def mkMask (bs : Fin 16 → Bool) : ℕ := mkMaskAux (List.ofFn bs)

/-- Lane `i` of a `__mmask16`: its bit `i`. -/
def maskBit (m : ℕ) (i : Fin 16) : Bool := m.testBit (i : ℕ)

/-- Intel semantics of `_mm512_cmp_ps_mask(a, b, pred)`: mask bit `i` is the
scalar predicate applied to lanes `a[i]`, `b[i]`. -/
def cmp_ps_mask (p : CmpPred) (a b : Vec16 F32) : ℕ :=
  mkMask (fun i => cmpPred p (a i) (b i))

/-- Intel semantics of `_mm512_setzero_ps()`: all lanes +0.0. -/
def setzero_ps : Vec16 F32 := fun _ => F32.num 0

/-- Intel semantics of `_mm512_sub_ps`: lane-wise IEEE subtraction. -/
def sub_ps (a b : Vec16 F32) : Vec16 F32 := fun i => fsub (a i) (b i)

/-- Source `operator-(const batch<float, 16>& rhs)`:
`_mm512_sub_ps(_mm512_setzero_ps(), rhs)` (negation via zero-subtraction). -/
def negate (rhs : Vec16 F32) : Vec16 F32 := sub_ps setzero_ps rhs

/-- Source `operator==`: `_mm512_cmp_ps_mask(lhs, rhs, _CMP_EQ_OQ)`. -/
def cmpEq (lhs rhs : Vec16 F32) : ℕ := cmp_ps_mask CmpPred.EQ_OQ lhs rhs

/-- Source `operator!=`: `_mm512_cmp_ps_mask(lhs, rhs, _CMP_NEQ_OQ)`. -/
def cmpNeq (lhs rhs : Vec16 F32) : ℕ := cmp_ps_mask CmpPred.NEQ_OQ lhs rhs

/-- Source `operator<`: `_mm512_cmp_ps_mask(lhs, rhs, _CMP_LT_OQ)`. -/
def cmpLt (lhs rhs : Vec16 F32) : ℕ := cmp_ps_mask CmpPred.LT_OQ lhs rhs

/-- Source `isnan(x)`: `_mm512_cmp_ps_mask(x, x, _CMP_UNORD_Q)`. -/
def isnan (x : Vec16 F32) : ℕ := cmp_ps_mask CmpPred.UNORD_Q x x

/-- Intel semantics of `_mm512_mask_blend_ps(k, a, b)`: lane `i` is `b[i]`
where mask bit `i` is set, else `a[i]`. -/
def mask_blend_ps {α : Type} (k : ℕ) (a b : Vec16 α) : Vec16 α :=
  fun i => if k.testBit (i : ℕ) then b i else a i

/-- Source `select(cond, a, b)`: `_mm512_mask_blend_ps(cond, b, a)`. -/
def select (cond : ℕ) (a b : Vec16 F32) : Vec16 F32 := mask_blend_ps cond b a

/-- Source `store_aligned(float* dst)` (`_mm512_store_ps`): the 16 lanes are
written to the buffer in lane order; the buffer contents are the lanes. -/
def store_aligned_f32 (b : Vec16 F32) : Vec16 F32 := fun i => b i

/-- Source `operator[](std::size_t index)`: stores the lanes into a 16-float
buffer `x` and returns `x[index & 15]`. -/
def elem (b : Vec16 F32) (index : ℕ) : F32 :=
  store_aligned_f32 b (idx16 (index &&& 15))

/-- Intel semantics of `_mm512_andnot_ps(a, b)`: lane-wise
`(NOT a) AND b` on the 32-bit lane patterns (the batch is viewed here
through its per-lane bit patterns, which is what the bitwise operations of
the source act on). -/
def andnot_ps (a b : Vec16 ℕ) : Vec16 ℕ :=
  fun i => ((2 ^ 32 - 1) ^^^ a i) &&& b i

/-- Source `bitwise_andnot(lhs, rhs)`: `_mm512_andnot_ps(lhs, rhs)`. -/
def bitwise_andnot (lhs rhs : Vec16 ℕ) : Vec16 ℕ := andnot_ps lhs rhs

/-- Round a rational to the nearest integer, ties to even: the default MXCSR
rounding mode used by `_mm512_cvtps_epi32`. -/
def cvt_rne (q : ℚ) : ℤ :=
  if q - (⌊q⌋ : ℚ) < 1 / 2 then ⌊q⌋
  else if (1 : ℚ) / 2 < q - (⌊q⌋ : ℚ) then ⌊q⌋ + 1
  else if Even ⌊q⌋ then ⌊q⌋ else ⌊q⌋ + 1

/-- Intel semantics of `_mm512_cvtps_epi32` in the default rounding mode:
round to nearest even; NaN, infinities and out-of-range values produce the
integer indefinite `0x80000000 = -2^31`. -/
def cvtps_epi32 : F32 → ℤ
  | F32.num q =>
    if -(2 ^ 31) ≤ cvt_rne q ∧ cvt_rne q < 2 ^ 31 then cvt_rne q else -(2 ^ 31)
  | F32.nzero => 0
  | _ => -(2 ^ 31)

/-- Source `store_aligned(int32_t* dst)`:
`_mm512_store_si512(dst, _mm512_cvtps_epi32(m_value))`; entry `i` of the
destination buffer is the converted lane `i`. -/
def store_aligned_i32 (b : Vec16 F32) : Vec16 ℤ := fun i => cvtps_epi32 (b i)

/-- Source `store_unaligned(int32_t* dst)`:
`_mm512_storeu_si512(dst, _mm512_cvtps_epi32(m_value))`. -/
def store_unaligned_i32 (b : Vec16 F32) : Vec16 ℤ := fun i => cvtps_epi32 (b i)

/-- Truncation toward zero of a rational, as a mathematical function: this is
the conversion the spec claims for float-to-integer narrowing stores. -/
def truncQ (q : ℚ) : ℤ := if 0 ≤ q then ⌊q⌋ else ⌈q⌉

/-- A float memory: contents of address `p` (in units of one float; the byte
address is `4 * p`). -/
def Mem : Type := ℕ → F32

/-- Intel semantics of `_mm512_loadu_ps(src)`: reads 16 consecutive floats,
no alignment precondition. -/
def loadu_ps (mem : Mem) (src : ℕ) : Vec16 F32 := fun i => mem (src + (i : ℕ))

/-- Intel semantics of `_mm512_load_ps(src)`: reads 16 consecutive floats,
but `src` must be 64-byte aligned (float index divisible by 16); a
misaligned source is undefined behavior, modelled as `none`. -/
def load_ps (mem : Mem) (src : ℕ) : Option (Vec16 F32) :=
  if src % 16 = 0 then some (fun i => mem (src + (i : ℕ))) else none

/-- Source `batch(const float* src)`: `_mm512_loadu_ps(src)`. -/
def batch_from_ptr (mem : Mem) (src : ℕ) : Vec16 F32 := loadu_ps mem src

/-- Source `batch(const float* src, aligned_mode)`: `_mm512_load_ps(src)`. -/
def batch_from_ptr_aligned_mode (mem : Mem) (src : ℕ) : Option (Vec16 F32) :=
  load_ps mem src

/-- Source `batch(const float* src, unaligned_mode)`: the body is
`_mm512_load_ps(src)` — the aligned load. -/
def batch_from_ptr_unaligned_mode (mem : Mem) (src : ℕ) : Option (Vec16 F32) :=
  load_ps mem src

/-- Source `load_unaligned(const float* src)`: `_mm512_loadu_ps(src)`. -/
def load_unaligned_f32 (mem : Mem) (src : ℕ) : Vec16 F32 := loadu_ps mem src

/-- Value of `_MM_SHUFFLE(z, y, x, w)`: `w | x << 2 | y << 4 | z << 6`. -/
def mmShuffle (z y x w : ℕ) : ℕ := w + 4 * x + 16 * y + 64 * z

/-- Intel semantics of `_mm512_shuffle_f32x4(a, b, imm)`: each 512-bit
register is four 128-bit blocks of four lanes; destination block `k` for
`k < 2` (resp. `k ≥ 2`) is the block of `a` (resp. `b`) selected by bits
`2k+1 : 2k` of `imm`. -/
def shuffle_f32x4 (a b : Vec16 ℚ) (imm : ℕ) : Vec16 ℚ := fun i =>
  let block := (i : ℕ) / 4
  let pos := (i : ℕ) % 4
  let sel := (imm >>> (2 * block)) % 4
  if block < 2 then a (idx16 (4 * sel + pos)) else b (idx16 (4 * sel + pos))

/-- Intel semantics of `_mm512_shuffle_ps(a, b, imm)`: within each 128-bit
block, destination elements 0 and 1 come from `a`, elements 2 and 3 from
`b`, each picked inside the block by the corresponding 2-bit field of
`imm`. -/
def shuffle_ps (a b : Vec16 ℚ) (imm : ℕ) : Vec16 ℚ := fun i =>
  let block := (i : ℕ) / 4
  let pos := (i : ℕ) % 4
  let sel := (imm >>> (2 * pos)) % 4
  if pos < 2 then a (idx16 (4 * block + sel)) else b (idx16 (4 * block + sel))

/-- Intel semantics of `_mm256_hadd_ps(a, b)`: within each 128-bit block,
adjacent-pair sums of `a` then of `b`. -/
def hadd256 (a b : Vec8 ℚ) : Vec8 ℚ := fun i =>
  let h := (i : ℕ) / 4
  let p := (i : ℕ) % 4
  if p < 2 then a (idx8 (4 * h + 2 * p)) + a (idx8 (4 * h + 2 * p + 1))
  else b (idx8 (4 * h + 2 * (p - 2))) + b (idx8 (4 * h + 2 * (p - 2) + 1))

/-- Intel semantics of `_mm512_extractf32x8_ps(v, k)`: 256-bit half `k`. -/
def extractf32x8 (v : Vec16 ℚ) (k : ℕ) : Vec8 ℚ :=
  fun i => v (idx16 (8 * k + (i : ℕ)))

/-- Concatenation `_mm512_insertf32x8(_mm512_castps256_ps512(lo), hi, 1)`
of two 256-bit halves into one 512-bit register. -/
def concat512 (lo hi : Vec8 ℚ) : Vec16 ℚ := fun i =>
  if (i : ℕ) < 8 then lo (idx8 (i : ℕ)) else hi (idx8 ((i : ℕ) - 8))

/-- Lane-wise `operator+` on `batch<float, 16>` (`_mm512_add_ps`), over the
exact rational lane model used for `haddp`. -/
def addv (a b : Vec16 ℚ) : Vec16 ℚ := fun i => a i + b i

/-- Source macro `XSIMD_AVX512_HADDP_STEP1(I, a, b)`:
`res_I = shuffle_f32x4(a, b, _MM_SHUFFLE(1,0,1,0))
       + shuffle_f32x4(a, b, _MM_SHUFFLE(3,2,3,2))`. -/
def haddpStep1 (a b : Vec16 ℚ) : Vec16 ℚ :=
  addv (shuffle_f32x4 a b (mmShuffle 1 0 1 0)) (shuffle_f32x4 a b (mmShuffle 3 2 3 2))

/-- Source macro `XSIMD_AVX512_HADDP_STEP2(I, a, b, c, d)`, transcribed
statement by statement, including the literal `shuffle_ps` immediates
`0b00000000` and `0b11111111` that appear in the source. -/
def haddpStep2 (a b c d : Vec16 ℚ) : Vec8 ℚ :=
  let tmp1 := shuffle_f32x4 a b (mmShuffle 2 0 2 0)
  let tmp2 := shuffle_f32x4 a b (mmShuffle 3 1 3 1)
  let resx1 := addv tmp1 tmp2
  let tmp3 := shuffle_f32x4 c d (mmShuffle 2 0 2 0)
  let tmp4 := shuffle_f32x4 c d (mmShuffle 3 1 3 1)
  let resx2 := addv tmp3 tmp4
  let tmp5 := shuffle_ps resx1 resx2 0b00000000
  let tmp6 := shuffle_ps resx1 resx2 0b11111111
  let resx3 := addv tmp5 tmp6
  hadd256 (extractf32x8 resx3 0) (extractf32x8 resx3 1)

/-- Source `haddp(const batch<float, 16>* row)`: STEP1 over the eight row
pairs, STEP2 over the two groups, then concatenation of the two halves.
Lane arithmetic is exact (rational); the function only shuffles and adds. -/
def haddp (row : Fin 16 → Vec16 ℚ) : Vec16 ℚ :=
  let res1 := haddpStep1 (row (idx16 0)) (row (idx16 4))
  let res2 := haddpStep1 (row (idx16 2)) (row (idx16 6))
  let res3 := haddpStep1 (row (idx16 1)) (row (idx16 5))
  let res4 := haddpStep1 (row (idx16 3)) (row (idx16 7))
  let res5 := haddpStep1 (row (idx16 8)) (row (idx16 12))
  let res6 := haddpStep1 (row (idx16 10)) (row (idx16 14))
  let res7 := haddpStep1 (row (idx16 9)) (row (idx16 13))
  let res8 := haddpStep1 (row (idx16 11)) (row (idx16 15))
  let halfx0 := haddpStep2 res1 res2 res3 res4
  let halfx1 := haddpStep2 res5 res6 res7 res8
  concat512 halfx0 halfx1

/-- Concrete memory holding 0.0 everywhere (input for the load theorems). -/
def memZero : Mem := fun _ => F32.num 0

/-- Concrete batch with every lane +0.0. -/
def pzeroBatch : Vec16 F32 := fun _ => F32.num 0

/-- Concrete batch with every lane NaN. -/
def nanBatch : Vec16 F32 := fun _ => F32.nan

/-- Concrete batch with every lane 1.5. -/
def halfBatch : Vec16 F32 := fun _ => F32.num (3 / 2)

/-- Concrete `haddp` input: all 16 rows equal to (0, 1, 0, ..., 0). -/
def rowsE1 : Fin 16 → Vec16 ℚ := fun _ j => if (j : ℕ) = 1 then 1 else 0

end xsimd

namespace xsimd

/-- Bit `i` of the little-endian packing of a boolean list is element `i` of
the list. -/
theorem testBit_mkMaskAux (l : List Bool) (i : ℕ) :
    (mkMaskAux l).testBit i = l.getD i false := by
  induction l generalizing i with
  | nil => simp [mkMaskAux]
  | cons b rest ih =>
    cases i with
    | zero =>
      rw [show mkMaskAux (b :: rest) = b.toNat + 2 * mkMaskAux rest from rfl,
        Nat.testBit_zero]
      cases b <;>
        simp [Nat.add_mul_mod_self_left (Bool.toNat _) 2 (mkMaskAux rest)]
    | succ i =>
      rw [show mkMaskAux (b :: rest) = b.toNat + 2 * mkMaskAux rest from rfl,
        Nat.testBit_add_one, Nat.add_mul_div_left _ _ (by norm_num : 0 < 2)]
      cases b <;> simp [ih]

/-- Lane `i` of the mask built from 16 booleans is boolean `i`. -/
theorem maskBit_mkMask (bs : Fin 16 → Bool) (i : Fin 16) :
    maskBit (mkMask bs) i = bs i := by
  rw [maskBit, mkMask, testBit_mkMaskAux, List.getD_eq_getElem?_getD,
    List.getElem?_ofFn, List.ofFnNthVal, dif_pos i.isLt]
  rfl


/-- C6: for every condition mask built from 16 booleans and all batches a, b,
lane i of select(cond, a, b) is a[i] when cond[i] is true and b[i] when it is
false. -/
theorem select_lane (bs : Fin 16 → Bool) (a b : Vec16 F32) (i : Fin 16) :
    select (mkMask bs) a b i = if bs i then a i else b i := by
  have h := maskBit_mkMask bs i
  rw [maskBit] at h
  simp only [select, mask_blend_ps, h]

/-- C7: lane i of isnan(x) is true if and only if x[i] is NaN. -/
theorem isnan_lane (x : Vec16 F32) (i : Fin 16) :
    maskBit (isnan x) i = true ↔ x i = F32.nan := by
  rw [isnan, cmp_ps_mask, maskBit_mkMask]
  cases h : x i <;> simp [cmpPred, F32.isNaN]

/-- C8: for every index value k, including k at or above 16, the lane
extraction b[k] returns the scalar at lane k modulo 16; it is a total
function, never an error. -/
theorem elem_wraps (b : Vec16 F32) (index : ℕ) :
    elem b index = b (idx16 (index % 16)) := by
  simp only [elem, store_aligned_f32]
  apply congrArg
  apply Fin.ext
  have h : index &&& 15 = index % 16 := Nat.and_pow_two_sub_one_eq_mod index 4
  simp only [idx16]
  omega

/-- C10: every bit j of lane i of bitwise_andnot(lhs, rhs) is
(NOT lhs[i]) AND rhs[i] at that bit: the first operand is the complemented
one. -/
theorem bitwise_andnot_bits (lhs rhs : Vec16 ℕ) (i : Fin 16) (j : Fin 32) :
    (bitwise_andnot lhs rhs i).testBit (j : ℕ)
      = (!(lhs i).testBit (j : ℕ) && (rhs i).testBit (j : ℕ)) := by
  simp only [bitwise_andnot, andnot_ps]
  rw [Nat.testBit_and, Nat.testBit_xor, Nat.testBit_two_pow_sub_one]
  simp [j.isLt]

/-- Ordered less-than on the float model agrees, on non-NaN operands, with
the order of the extended rationals; on NaN operands it is false. -/
theorem flt_iff (u v : F32) :
    flt u v = true ↔ u ≠ F32.nan ∧ v ≠ F32.nan ∧ F32.toExt u < F32.toExt v := by
  cases u <;> cases v <;>
    simp [flt, F32.toExt, F32.val, WithBot.bot_lt_coe, WithTop.coe_lt_top,
      WithBot.coe_lt_coe, WithTop.coe_lt_coe, not_lt_bot, not_top_lt,
      lt_self_iff_false]
  · exact WithBot.bot_lt_coe 0
  · exact WithBot.coe_lt_coe.mpr (WithTop.coe_lt_top 0)
  · exact WithBot.coe_lt_coe.mpr (WithTop.coe_lt_top _)

/-- C9: lane i of (a < b) is the ordered less-than of a[i] and b[i]: false
whenever either operand is NaN, and otherwise the numeric comparison. -/
theorem lt_lane (a b : Vec16 F32) (i : Fin 16) :
    maskBit (cmpLt a b) i = true
      ↔ a i ≠ F32.nan ∧ b i ≠ F32.nan ∧ F32.toExt (a i) < F32.toExt (b i) := by
  rw [cmpLt, cmp_ps_mask, maskBit_mkMask]
  exact flt_iff (a i) (b i)


/-- C1 evaluation: the unaligned_mode constructor executes the aligned load
(undefined, hence none, at the misaligned float pointer 4), while the plain
constructor and load_unaligned read the 16 values unconditionally; the
unaligned_mode constructor is byte-for-byte the aligned_mode one. -/
theorem unaligned_mode_ctor_eval :
    batch_from_ptr_unaligned_mode memZero 4 = none
      ∧ batch_from_ptr_unaligned_mode memZero 4 = batch_from_ptr_aligned_mode memZero 4
      ∧ batch_from_ptr memZero 4 = load_unaligned_f32 memZero 4 :=
  ⟨rfl, rfl, rfl⟩

/-- C3 counterexample: on a lane holding +0.0, vector negation (computed as
0.0 - x) returns +0.0, while scalar negation of +0.0 is -0.0. -/
theorem negate_pzero_counterexample :
    negate pzeroBatch (idx16 0) ≠ fneg (pzeroBatch (idx16 0)) := by
  simp [negate, sub_ps, setzero_ps, pzeroBatch, fsub, fneg, F32.val]

/-- C3 amended: lane i of -x equals the scalar negation of x[i] on every lane
whose value is not +0.0; on a +0.0 lane the result is +0.0 (not -0.0). -/
theorem negate_amended (x : Vec16 F32) (i : Fin 16) :
    negate x i = if x i = F32.num 0 then F32.num 0 else fneg (x i) := by
  simp only [negate, sub_ps, setzero_ps]
  rcases hx : x i with _ | _ | _ | _ | q
  · simp [fsub, fneg]
  · simp [fsub, fneg]
  · simp [fsub, fneg]
  · simp [fsub, fneg, F32.val]
  · by_cases hq : q = 0
    · subst hq
      simp [fsub, F32.val]
    · simp [fsub, fneg, F32.val, hq]

/-- C4 evaluation: with a NaN lane against a 0.0 lane, operator!= (predicate
_CMP_NEQ_OQ, ordered) reports false, although the operands are unordered,
where the scalar operator reports true. -/
theorem neq_nan_eval :
    maskBit (cmpNeq nanBatch pzeroBatch) (idx16 0) = false
      ∧ cmpPred CmpPred.UNORD_Q (nanBatch (idx16 0)) (pzeroBatch (idx16 0)) = true := by
  decide

/-- C5 evaluation: with all 16 rows equal to (0, 1, 0, ..., 0), every row
sums to 1, but haddp returns 0 in lane 0: the shuffle immediates 0b00000000
and 0b11111111 of STEP2 drop elements 1 and 2 of every 4-float block. -/
theorem haddp_eval :
    haddp rowsE1 (idx16 0) = 0 ∧ (∑ j : Fin 16, rowsE1 (idx16 0) j) = 1 := by
  constructor
  · norm_num [haddp, haddpStep1, haddpStep2, addv, shuffle_f32x4, shuffle_ps, hadd256,
      extractf32x8, concat512, mmShuffle, idx16, idx8, rowsE1, Nat.shiftRight_eq_div_pow]
  · simp [rowsE1, idx16]
    decide


/-- Round-to-nearest-even is nearest: the rounded integer is within one half
of the argument, and an exact tie rounds to an even integer. -/
theorem cvt_rne_nearest (q : ℚ) :
    |q - (cvt_rne q : ℚ)| ≤ 1 / 2
      ∧ (|q - (cvt_rne q : ℚ)| = 1 / 2 → Even (cvt_rne q)) := by
  have hf0 : (⌊q⌋ : ℚ) ≤ q := Int.floor_le q
  have hf1 : q < ⌊q⌋ + 1 := Int.lt_floor_add_one q
  rw [cvt_rne]
  split_ifs with hlt hgt heven
  · constructor
    · rw [abs_of_nonneg (by linarith)]
      linarith
    · intro habs
      rw [abs_of_nonneg (by linarith)] at habs
      exact absurd habs (ne_of_lt hlt)
  · have hcast : ((⌊q⌋ + 1 : ℤ) : ℚ) = (⌊q⌋ : ℚ) + 1 := by push_cast; ring
    constructor
    · rw [hcast, abs_of_nonpos (by linarith)]
      linarith
    · intro habs
      rw [hcast, abs_of_nonpos (by linarith)] at habs
      exact absurd (by linarith : q - (⌊q⌋ : ℚ) = 1 / 2) (ne_of_gt hgt)
  · have htie : q - (⌊q⌋ : ℚ) = 1 / 2 := le_antisymm (not_lt.mp hgt) (not_lt.mp hlt)
    constructor
    · rw [abs_of_nonneg (by linarith)]
      linarith
    · intro _
      exact heven
  · have htie : q - (⌊q⌋ : ℚ) = 1 / 2 := le_antisymm (not_lt.mp hgt) (not_lt.mp hlt)
    have hcast : ((⌊q⌋ + 1 : ℤ) : ℚ) = (⌊q⌋ : ℚ) + 1 := by push_cast; ring
    constructor
    · rw [hcast, abs_of_nonpos (by linarith)]
      linarith
    · intro _
      exact Int.even_add_one.mpr heven

/-- The conversion applied by the int32 stores sends 1.5 to 2. -/
theorem cvt_rne_three_halves : cvt_rne (3 / 2 : ℚ) = 2 := by
  have hfloor : ⌊(3 / 2 : ℚ)⌋ = 1 := by norm_num [Int.floor_eq_iff]
  rw [cvt_rne, hfloor]
  norm_num

/-- C2 counterexample: on a batch whose lane 0 holds 1.5, store_aligned to
int32 writes 2 (round to nearest even), not the truncation toward zero 1. -/
theorem store_i32_trunc_counterexample :
    store_aligned_i32 halfBatch (idx16 0) ≠ truncQ ((halfBatch (idx16 0)).val) := by
  have hfloor : ⌊(3 / 2 : ℚ)⌋ = 1 := by norm_num [Int.floor_eq_iff]
  have hstore : store_aligned_i32 halfBatch (idx16 0) = 2 := by
    show cvtps_epi32 (F32.num (3 / 2)) = 2
    simp only [cvtps_epi32, cvt_rne_three_halves]
    norm_num
  have htrunc : truncQ ((halfBatch (idx16 0)).val) = 1 := by
    show truncQ (3 / 2) = 1
    rw [truncQ, if_pos (by norm_num : (0 : ℚ) ≤ 3 / 2), hfloor]
  rw [hstore, htrunc]
  norm_num

/-- C2 amended: for a lane holding a finite value whose rounding is in int32
range, the int32 stores write the integer nearest to the lane value, with
exact ties rounded to the even integer (round-to-nearest-even, the default
rounding mode of _mm512_cvtps_epi32), not the truncation toward zero; the
aligned and unaligned stores write the same integers. -/
theorem store_i32_amended (b : Vec16 F32) (i : Fin 16) (q : ℚ)
    (hb : b i = F32.num q) (h1 : -(2 ^ 31) ≤ cvt_rne q) (h2 : cvt_rne q < 2 ^ 31) :
    |q - ((store_aligned_i32 b i : ℤ) : ℚ)| ≤ 1 / 2
      ∧ (|q - ((store_aligned_i32 b i : ℤ) : ℚ)| = 1 / 2 → Even (store_aligned_i32 b i))
      ∧ store_unaligned_i32 b i = store_aligned_i32 b i := by
  have hs : store_aligned_i32 b i = cvt_rne q := by
    simp only [store_aligned_i32, hb, cvtps_epi32]
    rw [if_pos ⟨h1, h2⟩]
  refine ⟨?_, ?_, rfl⟩
  · rw [hs]
    exact (cvt_rne_nearest q).1
  · rw [hs]
    exact (cvt_rne_nearest q).2

/-- C2 witness: the amended statement instantiated on the batch of 1.5
lanes, whose hypotheses all hold there. -/
theorem store_i32_amended_witness :
    halfBatch (idx16 0) = F32.num (3 / 2)
      ∧ -(2 ^ 31) ≤ cvt_rne (3 / 2 : ℚ) ∧ cvt_rne (3 / 2 : ℚ) < 2 ^ 31
      ∧ (|(3 / 2 : ℚ) - ((store_aligned_i32 halfBatch (idx16 0) : ℤ) : ℚ)| ≤ 1 / 2
        ∧ (|(3 / 2 : ℚ) - ((store_aligned_i32 halfBatch (idx16 0) : ℤ) : ℚ)| = 1 / 2
            → Even (store_aligned_i32 halfBatch (idx16 0)))
        ∧ store_unaligned_i32 halfBatch (idx16 0) = store_aligned_i32 halfBatch (idx16 0)) :=
  ⟨rfl, by rw [cvt_rne_three_halves]; norm_num, by rw [cvt_rne_three_halves]; norm_num,
    store_i32_amended halfBatch (idx16 0) (3 / 2) rfl
      (by rw [cvt_rne_three_halves]; norm_num) (by rw [cvt_rne_three_halves]; norm_num)⟩

end xsimd
